import Mathlib

/-!
Verification of the snapshot-diff core of `monitor-scheduledtasks`
(`src/main.py`): the task-record data model, the Linux (cron) collection
path of `get_scheduled_tasks`, and the compare/poll loop of
`monitor_scheduled_tasks`.

Snapshots in the code are Python lists of dicts; we embed them as
`List TaskRecord` with `Option String` fields (a missing dict key reads
as `None` via `.get`, embedded as `none`).  Python string operations used
by the collector (`str.split()`, `splitlines()`, `strip()` truthiness,
`startswith`, `" ".join`) are embedded as structural functions on the
character list of a `String`, so that everything reduces in the kernel.
-/

namespace MonitorTasks

/-- One scheduled-task record, the union of the dict shapes built at
`src/main.py:76-82` (Windows) and `src/main.py:100-104` (Linux).  Every
field other than `task_name` is optional: `dict.get` on a missing key
yields Python `None`, embedded as `none`. -/
structure TaskRecord where
  task_name : String
  trigger_time : Option String := none
  command : Option String := none
  last_run_time : Option String := none
  task_path : Option String := none
  state : Option String := none
  actions : Option String := none
deriving DecidableEq, Repr

/-- Python truthiness of `line.strip()` (src/main.py:95): a string is
blank iff every character is whitespace. -/
def isBlank (s : String) : Bool :=
  s.data.all Char.isWhitespace

/-- Python `line.startswith("#")` (src/main.py:95). -/
def startsWithHash (s : String) : Bool :=
  match s.data with
  | [] => false
  | c :: _ => c = '#'

/-- Helper for `pySplit`: accumulates the current field (reversed) while
scanning; whitespace ends a field, empty fields are dropped — the
semantics of Python `str.split()` with no argument. -/
def pySplitAux : List Char → List Char → List String
  | [], acc => if acc.isEmpty then [] else [String.mk acc.reverse]
  | c :: rest, acc =>
    if c.isWhitespace then
      if acc.isEmpty then pySplitAux rest []
      else String.mk acc.reverse :: pySplitAux rest []
    else pySplitAux rest (c :: acc)

/-- Python `line.split()` (src/main.py:96): split on runs of whitespace,
no empty fields. -/
def pySplit (s : String) : List String :=
  pySplitAux s.data []

/-- Helper for `pySplitLines`: split at newline characters. -/
def pySplitLinesAux : List Char → List Char → List String
  | [], acc => [String.mk acc.reverse]
  | c :: rest, acc =>
    if c = '\n' then String.mk acc.reverse :: pySplitLinesAux rest []
    else pySplitLinesAux rest (c :: acc)

/-- Python `stdout.splitlines()` (src/main.py:94).  (For input ending in
a newline Python drops the trailing empty line while this keeps it; the
parse below skips blank lines, so the resulting records agree.) -/
def pySplitLines (s : String) : List String :=
  pySplitLinesAux s.data []

/-- Python `" ".join(parts)` (src/main.py:98-99). -/
def joinSpace : List String → String
  | [] => ""
  | [s] => s
  | s :: rest => s ++ " " ++ joinSpace rest

/-- The body of the Linux per-line loop at src/main.py:95-104: a line
that is blank or starts with `#` is ignored; otherwise it is split on
whitespace, and only when it has more than 5 fields is a record built,
with the first five fields joined as the trigger and the rest joined as
the command; the command doubles as the task name.  A non-blank,
non-comment line with at most 5 fields produces no record and no error. -/
def parseCronLine (line : String) : Option TaskRecord :=
  if !(isBlank line) && !(startsWithHash line) then
    if 5 < (pySplit line).length then
      some { task_name := joinSpace ((pySplit line).drop 5),
             trigger_time := some (joinSpace ((pySplit line).take 5)),
             command := some (joinSpace ((pySplit line).drop 5)) }
    else none
  else none

/-- The lines of the crontab listing (src/main.py:94). -/
def cronLines (stdout : String) : List String :=
  pySplitLines stdout

/-- The Linux snapshot built from `crontab -l` output
(src/main.py:93-105). -/
def linuxTasks (stdout : String) : List TaskRecord :=
  (cronLines stdout).filterMap parseCronLine

/-- The environment one call of `get_scheduled_tasks` observes.  The
Linux branch (src/main.py:85-105) sees the stdout and stderr of
`crontab -l`; any other platform hits the `else` branch at
src/main.py:106-108.  (The Windows branch shells out once per task and
is not needed by the properties below, so it is not modelled.) -/
inductive CollectEnv where
  | linux (stdout stderr : String)
  | unsupported (osName : String)
deriving DecidableEq, Repr

/-- `get_scheduled_tasks` (src/main.py:25-115) on the modelled branches:
on Linux a nonempty stderr is an error return (`None`,
src/main.py:89-91), otherwise the parsed task list; an unsupported
platform is always an error return (src/main.py:106-108). -/
def getScheduledTasks : CollectEnv → Option (List TaskRecord)
  | .linux stdout stderr => if stderr = "" then some (linuxTasks stdout) else none
  | .unsupported _ => none

/-- `{task['task_name'] for task in tasks}` (src/main.py:136-137). -/
def taskNames (tasks : List TaskRecord) : Finset String :=
  (tasks.map TaskRecord.task_name).toFinset

/-- Python `next((task for task in tasks if task['task_name'] == n), None)`
(src/main.py:143 and src/main.py:153): the first record with the given
name, if any. -/
def firstWithName (tasks : List TaskRecord) (n : String) : Option TaskRecord :=
  tasks.find? (fun t => t.task_name == n)

/-- `added_tasks = current_task_names - previous_task_names`
(src/main.py:139). -/
def addedNames (previous current : List TaskRecord) : Finset String :=
  taskNames current \ taskNames previous

/-- `removed_tasks = previous_task_names - current_task_names`
(src/main.py:140). -/
def removedNames (previous current : List TaskRecord) : Finset String :=
  taskNames previous \ taskNames current

/-- The added group as reported at src/main.py:142-146: for each added
name, the first current record with that name (the value of
`next(task for task in current_tasks if ...)`). -/
def addedEntries (previous current : List TaskRecord) : Finset (String × Option TaskRecord) :=
  (addedNames previous current).image (fun n => (n, firstWithName current n))

/-- The updated group as reported at src/main.py:152-158: every current
record, in list order, paired with the first previous record of the same
name when one exists and `trigger_time` or `command` differs (compared
through `dict.get`, hence on `Option String`). -/
def updatedEntries (previous current : List TaskRecord) : List (TaskRecord × TaskRecord) :=
  current.filterMap (fun c =>
    match firstWithName previous c.task_name with
    | none => none
    | some p =>
      if c.trigger_time ≠ p.trigger_time ∨ c.command ≠ p.command then some (p, c)
      else none)

/-- The change set one poll cycle reports (src/main.py:136-158): added
entries (name and the record looked up in `current_tasks`), removed
names (name only, src/main.py:148-150), and updated old/new record
pairs. -/
structure ChangeSet where
  added : Finset (String × Option TaskRecord)
  removed : Finset String
  updated : List (TaskRecord × TaskRecord)
deriving DecidableEq

/-- The comparison performed by one successful cycle of
`monitor_scheduled_tasks` (src/main.py:136-158). -/
def diff (previous current : List TaskRecord) : ChangeSet :=
  { added := addedEntries previous current
    removed := removedNames previous current
    updated := updatedEntries previous current }

/-- The change set with all three groups empty. -/
def emptyChangeSet : ChangeSet :=
  { added := ∅, removed := ∅, updated := [] }

/-- One iteration of the `while True` loop (src/main.py:127-159) on a
given collection result: a `None` result skips the cycle and keeps the
previous snapshot (src/main.py:131-133); a successful collection
computes the diff and replaces the previous snapshot unconditionally
(src/main.py:159).  Returns the new previous snapshot and the change
set the cycle reported, if any. -/
def pollStep (previous : List TaskRecord) (result : Option (List TaskRecord)) :
    List TaskRecord × Option ChangeSet :=
  match result with
  | none => (previous, none)
  | some current => (current, some (diff previous current))

/-- The poll loop run over a finite sequence of collection results,
starting from a baseline snapshot: the list of per-cycle reports. -/
def pollRun (previous : List TaskRecord) :
    List (Option (List TaskRecord)) → List (Option ChangeSet)
  | [] => []
  | r :: rs => (pollStep previous r).2 :: pollRun (pollStep previous r).1 rs

/-- `monitor_scheduled_tasks` (src/main.py:117-159) over a finite
sequence of collection results, the first being the initial call at
src/main.py:122: if it fails the function returns at once
(src/main.py:123-125) and no cycle ever runs; otherwise its snapshot is
the baseline for the loop. -/
def monitorScheduledTasks (results : List (Option (List TaskRecord))) :
    List (Option ChangeSet) :=
  match results with
  | [] => []
  | none :: _ => []
  | some s0 :: rest => pollRun s0 rest

/-! ### Helper lemmas about names, lookup and the updated group -/

/-- A name is in the name set of a snapshot iff some record carries it. -/
theorem mem_taskNames {tasks : List TaskRecord} {n : String} :
    n ∈ taskNames tasks ↔ ∃ t ∈ tasks, t.task_name = n := by
  simp [taskNames]

/-- What a successful `firstWithName` lookup returns: a member of the
list carrying the requested name. -/
theorem firstWithName_mem {tasks : List TaskRecord} {n : String} {p : TaskRecord}
    (h : firstWithName tasks n = some p) : p ∈ tasks ∧ p.task_name = n :=
  ⟨List.mem_of_find?_eq_some h, by simpa using List.find?_some h⟩

/-- When names are unique in the list, looking up a member's name finds
exactly that member. -/
theorem firstWithName_eq_of_nodup {tasks : List TaskRecord} {p : TaskRecord}
    (hnd : (tasks.map TaskRecord.task_name).Nodup) (hp : p ∈ tasks) :
    firstWithName tasks p.task_name = some p := by
  induction tasks with
  | nil => cases hp
  | cons a t ih =>
    rw [List.map_cons] at hnd
    have hnd2 := List.nodup_cons.mp hnd
    rcases List.mem_cons.mp hp with rfl | hp2
    · simp [firstWithName]
    · have hne : ¬ ((fun t => t.task_name == p.task_name) a = true) := by
        simp only [beq_iff_eq]
        intro he
        exact hnd2.1 (he ▸ List.mem_map_of_mem TaskRecord.task_name hp2)
      simp only [firstWithName] at ih ⊢
      have hstep : List.find? (fun t => t.task_name == p.task_name) (a :: t)
          = List.find? (fun t => t.task_name == p.task_name) t :=
        List.find?_cons_of_neg t hne
      rw [hstep]
      exact ih hnd2.2 hp2

/-- When names are unique in the list, two members with the same name
are the same record. -/
theorem name_inj_of_nodup {tasks : List TaskRecord}
    (hnd : (tasks.map TaskRecord.task_name).Nodup) {p q : TaskRecord}
    (hp : p ∈ tasks) (hq : q ∈ tasks) (h : p.task_name = q.task_name) : p = q := by
  have h1 := firstWithName_eq_of_nodup hnd hp
  have h2 := firstWithName_eq_of_nodup hnd hq
  rw [h] at h1
  rw [h1] at h2
  exact Option.some.inj h2

/-- Membership in the updated group, unfolded: the new record is a
current record, the old record is the first previous record with the
same name, and `trigger_time` or `command` differs. -/
theorem mem_updatedEntries {previous current : List TaskRecord} {e : TaskRecord × TaskRecord} :
    e ∈ updatedEntries previous current ↔
      e.2 ∈ current ∧ firstWithName previous e.2.task_name = some e.1 ∧
        (e.2.trigger_time ≠ e.1.trigger_time ∨ e.2.command ≠ e.1.command) := by
  simp only [updatedEntries, List.mem_filterMap]
  constructor
  · rintro ⟨c, hc, hf⟩
    split at hf
    · exact absurd hf (by simp)
    · rename_i p hfind
      split at hf
      · rename_i hcond
        cases hf
        exact ⟨hc, hfind, hcond⟩
      · exact absurd hf (by simp)
  · rintro ⟨hc, hfind, hcond⟩
    refine ⟨e.2, hc, ?_⟩
    simp only [hfind]
    rw [if_pos hcond]

/-- The added group of a diff, by definition. -/
theorem diff_added (previous current : List TaskRecord) :
    (diff previous current).added = addedEntries previous current := rfl

/-- The removed group of a diff, by definition. -/
theorem diff_removed (previous current : List TaskRecord) :
    (diff previous current).removed = removedNames previous current := rfl

/-- The updated group of a diff, by definition. -/
theorem diff_updated (previous current : List TaskRecord) :
    (diff previous current).updated = updatedEntries previous current := rfl

/-! ### The claims -/

/-- C1: for snapshots with unique identities and a common identity, the
diff emits an updated entry for that identity iff the comparison key —
`trigger_time` or `command` — differs between the two records; a
difference confined to the other fields never does. -/
theorem update_iff_key_differs (previous current : List TaskRecord) (p c : TaskRecord)
    (hndp : (previous.map TaskRecord.task_name).Nodup)
    (hndc : (current.map TaskRecord.task_name).Nodup)
    (hp : p ∈ previous) (hc : c ∈ current) (hn : p.task_name = c.task_name) :
    (∃ e ∈ (diff previous current).updated, e.2.task_name = c.task_name) ↔
      (c.trigger_time ≠ p.trigger_time ∨ c.command ≠ p.command) := by
  constructor
  · rintro ⟨e, he, hename⟩
    rw [diff_updated, mem_updatedEntries] at he
    obtain ⟨hc2, hfind, hcond⟩ := he
    obtain ⟨hp1, hname1⟩ := firstWithName_mem hfind
    have hceq : e.2 = c := name_inj_of_nodup hndc hc2 hc hename
    have hpeq : e.1 = p := name_inj_of_nodup hndp hp1 hp (by rw [hname1, hename, hn])
    rw [hceq, hpeq] at hcond
    exact hcond
  · intro hcond
    refine ⟨(p, c), ?_, rfl⟩
    rw [diff_updated, mem_updatedEntries]
    have hfind := firstWithName_eq_of_nodup hndp hp
    rw [hn] at hfind
    exact ⟨hc, hfind, hcond⟩

/-- Witness for C1 at a concrete pair of snapshots whose common task
changed only its trigger. -/
theorem update_iff_key_differs_witness :
    ∃ e ∈ (diff
        [{ task_name := "A", trigger_time := some "0 5 * * *", command := some "backup.sh" }]
        [{ task_name := "A", trigger_time := some "0 6 * * *", command := some "backup.sh" }]).updated,
      e.2.task_name = "A" :=
  (update_iff_key_differs
    [{ task_name := "A", trigger_time := some "0 5 * * *", command := some "backup.sh" }]
    [{ task_name := "A", trigger_time := some "0 6 * * *", command := some "backup.sh" }]
    { task_name := "A", trigger_time := some "0 5 * * *", command := some "backup.sh" }
    { task_name := "A", trigger_time := some "0 6 * * *", command := some "backup.sh" }
    (by decide) (by decide) (by decide) (by decide) (by decide)).mpr (by decide)

/-- C2: the identities of the added group are exactly the current names
minus the previous names (and the removed group the reverse set
difference), and, when the current snapshot has unique identities, each
added entry carries the current record of its identity. -/
theorem added_removed_complement (previous current : List TaskRecord)
    (hndc : (current.map TaskRecord.task_name).Nodup) :
    ((diff previous current).added.image Prod.fst = taskNames current \ taskNames previous) ∧
    ((diff previous current).removed = taskNames previous \ taskNames current) ∧
    (∀ x ∈ (diff previous current).added, ∃ t ∈ current, t.task_name = x.1 ∧ x.2 = some t) := by
  refine ⟨?_, rfl, ?_⟩
  · rw [diff_added]
    unfold addedEntries
    rw [Finset.image_image]
    have hcomp : (Prod.fst ∘ fun n => (n, firstWithName current n)) = id := rfl
    rw [hcomp, Finset.image_id]
    rfl
  · intro x hx
    rw [diff_added] at hx
    unfold addedEntries at hx
    rw [Finset.mem_image] at hx
    obtain ⟨n, hn, rfl⟩ := hx
    have hn2 : n ∈ taskNames current := (Finset.mem_sdiff.mp hn).1
    obtain ⟨t, ht, hteq⟩ := mem_taskNames.mp hn2
    refine ⟨t, ht, hteq, ?_⟩
    have hfind := firstWithName_eq_of_nodup hndc ht
    rw [hteq] at hfind
    exact hfind

/-- Witness for C2 at a concrete pair of snapshots with one task
replaced by another. -/
theorem added_removed_complement_witness :
    ((diff [{ task_name := "A" }] [{ task_name := "B" }]).added.image Prod.fst
        = taskNames [{ task_name := "B" }] \ taskNames [{ task_name := "A" }]) ∧
    ((diff [{ task_name := "A" }] [{ task_name := "B" }]).removed
        = taskNames [{ task_name := "A" }] \ taskNames [{ task_name := "B" }]) ∧
    (∀ x ∈ (diff [{ task_name := "A" }] [{ task_name := "B" }]).added,
      ∃ t ∈ [{ task_name := "B" }], t.task_name = x.1 ∧ x.2 = some t) :=
  added_removed_complement [{ task_name := "A" }] [{ task_name := "B" }] (by decide)

/-- C4: diffing a snapshot with unique identities against itself
reports nothing: all three groups are empty. -/
theorem diff_self_empty (S : List TaskRecord)
    (hnd : (S.map TaskRecord.task_name).Nodup) :
    diff S S = emptyChangeSet := by
  have h1 : addedEntries S S = ∅ := by
    simp [addedEntries, addedNames]
  have h2 : removedNames S S = ∅ := by
    simp [removedNames]
  have h3 : updatedEntries S S = [] := by
    unfold updatedEntries
    rw [List.filterMap_eq_nil_iff]
    intro c hc
    rw [firstWithName_eq_of_nodup hnd hc]
    simp
  show ChangeSet.mk (addedEntries S S) (removedNames S S) (updatedEntries S S)
      = ChangeSet.mk ∅ ∅ []
  rw [h1, h2, h3]

/-- Witness for C4 at a concrete one-task snapshot. -/
theorem diff_self_empty_witness :
    diff [{ task_name := "backup.sh", trigger_time := some "0 5 * * *", command := some "backup.sh" }]
      [{ task_name := "backup.sh", trigger_time := some "0 5 * * *", command := some "backup.sh" }]
      = emptyChangeSet :=
  diff_self_empty
    [{ task_name := "backup.sh", trigger_time := some "0 5 * * *", command := some "backup.sh" }]
    (by decide)

/-- C3: in the Running loop a failed collection leaves the previous
snapshot untouched and the loop continues, so over the cycle sequence
[success(S1), failure, success(S2)] the diff of the S2 cycle is
diff(S1, S2). -/
theorem baseline_preserved_on_failure (P0 S1 S2 : List TaskRecord) :
    (∀ previous rest, pollRun previous (none :: rest) = none :: pollRun previous rest) ∧
    pollRun P0 [some S1, none, some S2] =
      [some (diff P0 S1), none, some (diff S1 S2)] := by
  exact ⟨fun previous rest => rfl, rfl⟩

/-- C5: a failed initial collection — in particular the unsupported
platform case, where `get_scheduled_tasks` always returns the error
value — makes the monitor return before any polling cycle, so no diff
is ever computed without a successful baseline snapshot. -/
theorem no_polling_without_baseline :
    (∀ osName, getScheduledTasks (.unsupported osName) = none) ∧
    (∀ rest, monitorScheduledTasks (none :: rest) = []) ∧
    (∀ osName rest,
      monitorScheduledTasks (getScheduledTasks (.unsupported osName) :: rest) = []) := by
  exact ⟨fun _ => rfl, fun _ => rfl, fun _ _ => rfl⟩

/-- C6: after a successful cycle the previous snapshot is replaced by
the current snapshot unconditionally — the remainder of the run is
computed with `current` as the baseline whatever the reported change
set was, including the empty one. -/
theorem previous_replaced_unconditionally (previous current : List TaskRecord)
    (rest : List (Option (List TaskRecord))) :
    pollStep previous (some current) = (current, some (diff previous current)) ∧
    pollRun previous (some current :: rest) =
      some (diff previous current) :: pollRun current rest := by
  exact ⟨rfl, rfl⟩

/-- A successful `firstWithName` lookup returns the first occurrence:
the list splits around the result and every earlier record has a
different name. -/
theorem firstWithName_first {tasks : List TaskRecord} {n : String} {p : TaskRecord}
    (h : firstWithName tasks n = some p) :
    ∃ l1 l2, tasks = l1 ++ p :: l2 ∧ ∀ u ∈ l1, u.task_name ≠ n := by
  unfold firstWithName at h
  rw [List.find?_eq_some] at h
  obtain ⟨-, l1, l2, rfl, hl1⟩ := h
  refine ⟨l1, l2, rfl, fun u hu => ?_⟩
  simpa using hl1 u hu

/-- C7 as stated fails on the code: with duplicate identities in the
current snapshot, the added entry carries the record occurring first in
the collected sequence, not last. -/
theorem added_record_is_not_last_seen :
    ("a", some ({ task_name := "a", command := some "x" } : TaskRecord))
        ∈ (diff [] [{ task_name := "a", command := some "x" },
                    { task_name := "a", command := some "y" }]).added ∧
    ("a", some ({ task_name := "a", command := some "y" } : TaskRecord))
        ∉ (diff [] [{ task_name := "a", command := some "x" },
                    { task_name := "a", command := some "y" }]).added ∧
    ({ task_name := "a", command := some "x" } : TaskRecord)
        ≠ { task_name := "a", command := some "y" } := by
  decide

/-- C7 amended: whenever the diff selects a record for an identity, it
is the record occurring first in the collected sequence — for an added
entry the first current record of that name, and for an updated entry
the first previous record of that name. -/
theorem first_seen_wins (previous current : List TaskRecord) :
    (∀ x ∈ (diff previous current).added,
      ∃ l1 t l2, current = l1 ++ t :: l2 ∧ t.task_name = x.1 ∧ x.2 = some t ∧
        ∀ u ∈ l1, u.task_name ≠ x.1) ∧
    (∀ e ∈ (diff previous current).updated,
      e.1.task_name = e.2.task_name ∧
      ∃ l1 l2, previous = l1 ++ e.1 :: l2 ∧ ∀ u ∈ l1, u.task_name ≠ e.2.task_name) := by
  constructor
  · intro x hx
    rw [diff_added] at hx
    unfold addedEntries at hx
    rw [Finset.mem_image] at hx
    obtain ⟨n, hn, rfl⟩ := hx
    have hn2 : n ∈ taskNames current := (Finset.mem_sdiff.mp hn).1
    obtain ⟨t, ht, htn⟩ := mem_taskNames.mp hn2
    have hsome : (firstWithName current n).isSome := by
      unfold firstWithName
      rw [List.find?_isSome]
      exact ⟨t, ht, by simpa using htn⟩
    obtain ⟨u, hu⟩ := Option.isSome_iff_exists.mp hsome
    obtain ⟨l1, l2, heq, hl1⟩ := firstWithName_first hu
    exact ⟨l1, u, l2, heq, (firstWithName_mem hu).2, hu, hl1⟩
  · intro e he
    rw [diff_updated, mem_updatedEntries] at he
    obtain ⟨-, hfind, -⟩ := he
    obtain ⟨l1, l2, heq, hl1⟩ := firstWithName_first hfind
    exact ⟨(firstWithName_mem hfind).2, l1, l2, heq, hl1⟩

/-- Witness for the amended C7 at a concrete snapshot with a duplicate
identity. -/
theorem first_seen_wins_witness :
    ∃ l1 t l2,
      [({ task_name := "a", command := some "x" } : TaskRecord),
       { task_name := "a", command := some "y" }] = l1 ++ t :: l2 ∧
      t.task_name = "a" ∧
      (some ({ task_name := "a", command := some "x" } : TaskRecord) = some t) ∧
      ∀ u ∈ l1, u.task_name ≠ "a" :=
  (first_seen_wins []
      [{ task_name := "a", command := some "x" },
       { task_name := "a", command := some "y" }]).1
    ("a", some { task_name := "a", command := some "x" }) (by decide)

/-- C8 as stated fails on the code: the listing `not a cron line` has
a non-blank, non-comment line the collector cannot parse into a task,
yet collection returns an empty snapshot rather than a failure. -/
theorem malformed_line_absorbed :
    (∃ line ∈ cronLines "not a cron line",
      isBlank line = false ∧ startsWithHash line = false ∧ parseCronLine line = none) ∧
    getScheduledTasks (.linux "not a cron line" "") = some [] := by
  decide

/-- C8 amended: the Linux collector never fails on unparsable listing
content — with empty stderr it always returns a snapshot, consisting of
exactly the records of the lines that do parse; every other line,
malformed ones included, is silently skipped. -/
theorem collection_ignores_malformed_lines (stdout : String) :
    getScheduledTasks (.linux stdout "") = some (linuxTasks stdout) ∧
    ∀ r ∈ linuxTasks stdout, ∃ line ∈ cronLines stdout, parseCronLine line = some r := by
  constructor
  · rfl
  · intro r hr
    unfold linuxTasks at hr
    rw [List.mem_filterMap] at hr
    obtain ⟨line, hline, hparse⟩ := hr
    exact ⟨line, hline, hparse⟩

/-- Witness for the amended C8 at a concrete one-line listing. -/
theorem collection_ignores_malformed_lines_witness :
    ∃ line ∈ cronLines "0 5 * * * backup.sh",
      parseCronLine line
        = some ({ task_name := "backup.sh", trigger_time := some "0 5 * * *", command := some "backup.sh" } : TaskRecord) :=
  (collection_ignores_malformed_lines "0 5 * * * backup.sh").2
    { task_name := "backup.sh", trigger_time := some "0 5 * * *", command := some "backup.sh" }
    (by decide)

/-- Every record the cron line parser produces uses its command string
as its identity. -/
theorem parseCronLine_command {line : String} {r : TaskRecord}
    (h : parseCronLine line = some r) : r.command = some r.task_name := by
  unfold parseCronLine at h
  split at h
  · split at h
    · cases h
      rfl
    · exact absurd h (by simp)
  · exact absurd h (by simp)

/-- Every record of a Linux snapshot uses its command string as its
identity. -/
theorem linuxTasks_command {stdout : String} {r : TaskRecord}
    (hr : r ∈ linuxTasks stdout) : r.command = some r.task_name := by
  unfold linuxTasks at hr
  rw [List.mem_filterMap] at hr
  obtain ⟨line, -, hparse⟩ := hr
  exact parseCronLine_command hparse

/-- C10: on the Linux path the identity is the command string, so
matching identities force equal commands; an updated entry between two
Linux snapshots carries equal commands and necessarily a differing
trigger; a command change means a different identity, which — when the
old and new commands are absent from the other snapshot — is reported
through the removed and added groups. -/
theorem linux_identity_is_command (out1 out2 : String) :
    (∀ r ∈ linuxTasks out1, r.command = some r.task_name) ∧
    (∀ p c : TaskRecord, p ∈ linuxTasks out1 → c ∈ linuxTasks out2 →
      p.task_name = c.task_name → p.command = c.command) ∧
    (∀ e ∈ (diff (linuxTasks out1) (linuxTasks out2)).updated,
      e.1.command = e.2.command ∧ e.1.trigger_time ≠ e.2.trigger_time) ∧
    (∀ p c : TaskRecord, p ∈ linuxTasks out1 → c ∈ linuxTasks out2 →
      p.command ≠ c.command → p.task_name ≠ c.task_name) ∧
    (∀ p ∈ linuxTasks out1, p.task_name ∉ taskNames (linuxTasks out2) →
      p.task_name ∈ (diff (linuxTasks out1) (linuxTasks out2)).removed) ∧
    (∀ c ∈ linuxTasks out2, c.task_name ∉ taskNames (linuxTasks out1) →
      (c.task_name, firstWithName (linuxTasks out2) c.task_name)
          ∈ (diff (linuxTasks out1) (linuxTasks out2)).added) := by
  have h2 : ∀ p c : TaskRecord, p ∈ linuxTasks out1 → c ∈ linuxTasks out2 →
      p.task_name = c.task_name → p.command = c.command := by
    intro p c hp hc hname
    rw [linuxTasks_command hp, linuxTasks_command hc, hname]
  refine ⟨fun r hr => linuxTasks_command hr, h2, ?_, ?_, ?_, ?_⟩
  · intro e he
    rw [diff_updated, mem_updatedEntries] at he
    obtain ⟨hc, hfind, hcond⟩ := he
    obtain ⟨hp1, hname1⟩ := firstWithName_mem hfind
    have hcmd : e.1.command = e.2.command := h2 e.1 e.2 hp1 hc hname1
    refine ⟨hcmd, ?_⟩
    rcases hcond with htr | hcm
    · exact fun h => htr h.symm
    · exact absurd hcmd.symm hcm
  · intro p c hp hc hcmd hname
    exact hcmd (h2 p c hp hc hname)
  · intro p hp hnot
    rw [diff_removed]
    unfold removedNames
    exact Finset.mem_sdiff.mpr ⟨mem_taskNames.mpr ⟨p, hp, rfl⟩, hnot⟩
  · intro c hc hnot
    rw [diff_added]
    unfold addedEntries
    rw [Finset.mem_image]
    exact ⟨c.task_name,
      Finset.mem_sdiff.mpr ⟨mem_taskNames.mpr ⟨c, hc, rfl⟩, hnot⟩, rfl⟩

/-- Witness for C10 at two concrete one-line crontabs whose only entry
differs in its trigger. -/
theorem linux_identity_is_command_witness :
    (some "backup.sh" : Option String) = some "backup.sh" ∧
    (some "0 5 * * *" : Option String) ≠ some "1 5 * * *" :=
  (linux_identity_is_command "0 5 * * * backup.sh" "1 5 * * * backup.sh").2.2.1
    (({ task_name := "backup.sh", trigger_time := some "0 5 * * *",
        command := some "backup.sh" } : TaskRecord),
     ({ task_name := "backup.sh", trigger_time := some "1 5 * * *",
        command := some "backup.sh" } : TaskRecord))
    (by decide)

end MonitorTasks
